import Mathlib

/-!
# helper_3dmath.h (STM32/MPU6050): quaternion and 3D vector helpers

A shallow embedding of `src/STM32/MPU6050/helper_3dmath.h`.

* The C type `float` is a type parameter `α` carrying the arithmetic the code
  uses.  The definitions are computable for every `α` (they run on `ℚ`); the
  theorems about "exact real arithmetic" instantiate `α := ℝ`.
* `sqrtf` from `<math.h>` is a parameter of the functions that call it; the
  theorems pass `Real.sqrt`.
* A C function writing through a pointer argument is a Lean function returning
  the value the pointee holds after the call.  A function that both returns a
  value and writes through its pointer returns the pair
  `(returned value, pointee after the call)`.
* `int16_t` and `int` values are integers; the wrap-around of the 32-bit `int`
  arithmetic and of the narrowing to `int16_t` is explicit.
* The conversion of a 32-bit `int` to `float` rounds to the 24-bit significand
  of binary32 (`intToFloat32`).  The conversion of an `int16_t` is exact.
-/

namespace Helper3DMath

/-! ## Quaternion -/

/-- The struct `Quaternion` of four `float` fields. -/
@[ext]
structure Quaternion (α : Type) where
  w : α
  x : α
  y : α
  z : α

/-- Source function `Quaternion_init(q)`: the value of `*q` after the call. -/
def Quaternion_init {α : Type} [Zero α] [One α] : Quaternion α :=
  { w := 1, x := 0, y := 0, z := 0 }

/-- Source function `Quaternion_initVal(q, nw, nx, ny, nz)`: the value of `*q` after the call.
All four fields are overwritten, so the earlier content of `*q` plays no role. -/
def Quaternion_initVal {α : Type} (nw nx ny nz : α) : Quaternion α :=
  { w := nw, x := nx, y := ny, z := nz }

/-- Source function `Quaternion_getProduct(q1, q2)`: the returned `q_result`; `*q1` and `*q2`
are only read. -/
def Quaternion_getProduct {α : Type} [Add α] [Sub α] [Mul α]
    (q1 q2 : Quaternion α) : Quaternion α :=
  Quaternion_initVal
    (q1.w * q2.w - q1.x * q2.x - q1.y * q2.y - q1.z * q2.z)
    (q1.w * q2.x + q1.x * q2.w + q1.y * q2.z - q1.z * q2.y)
    (q1.w * q2.y - q1.x * q2.z + q1.y * q2.w + q1.z * q2.x)
    (q1.w * q2.z + q1.x * q2.y - q1.y * q2.x + q1.z * q2.w)

/-- Source function `Quaternion_getConjugate(q)`: the returned `q_result`; `*q` is only read. -/
def Quaternion_getConjugate {α : Type} [Neg α] (q : Quaternion α) : Quaternion α :=
  Quaternion_initVal q.w (- q.x) (- q.y) (- q.z)

/-- Source function `Quaternion_getMagnitude(q)`, with the library function `sqrtf` passed in. -/
def Quaternion_getMagnitude {α : Type} [Add α] [Mul α] (sqrtf : α → α)
    (q : Quaternion α) : α :=
  sqrtf ((q.w) * (q.w) + (q.x) * (q.x) + (q.y) * (q.y) + (q.z) * (q.z))

/-- Source function `Quaternion_normalize(q)`: the value of `*q` after the call.  The magnitude
`m` is read once, then the four fields are divided one after the other. -/
def Quaternion_normalize {α : Type} [Add α] [Mul α] [Div α] (sqrtf : α → α)
    (q : Quaternion α) : Quaternion α :=
  let m := Quaternion_getMagnitude sqrtf q
  let q := { q with w := q.w / m }
  let q := { q with x := q.x / m }
  let q := { q with y := q.y / m }
  let q := { q with z := q.z / m }
  q

/-- Source function `Quaternion_getNormalized(q)`: the returned `r`.  The function never writes
through `q`; it normalizes the local copy `r`. -/
def Quaternion_getNormalized {α : Type} [Add α] [Mul α] [Div α] (sqrtf : α → α)
    (q : Quaternion α) : Quaternion α :=
  let r := Quaternion_initVal q.w q.x q.y q.z
  let r := Quaternion_normalize sqrtf r
  r

/-- The call `Quaternion_getConjugate(q)` with its effect on the argument: the
pair of the returned `q_result` and the value of `*q` after the call.  The
source has no assignment through `q`. -/
def Quaternion_getConjugate_call {α : Type} [Neg α] (q : Quaternion α) :
    Quaternion α × Quaternion α :=
  let q_result := Quaternion_initVal q.w (- q.x) (- q.y) (- q.z)
  (q_result, q)

/-- The call `Quaternion_getNormalized(q)` with its effect on the argument: the
pair of the returned `r` and the value of `*q` after the call.  The source
passes `&r` to `Quaternion_normalize` and has no assignment through `q`. -/
def Quaternion_getNormalized_call {α : Type} [Add α] [Mul α] [Div α] (sqrtf : α → α)
    (q : Quaternion α) : Quaternion α × Quaternion α :=
  let r := Quaternion_initVal q.w q.x q.y q.z
  let r := Quaternion_normalize sqrtf r
  (r, q)

/-! ## Machine integers -/

/-- The value of a 32-bit two's-complement `int` holding the mathematical
integer `n`.  Overflow of signed `int` arithmetic is undefined in C; the model
takes the wrap-around of the registers of the target. -/
def wrapInt32 (n : ℤ) : ℤ := (n + 2147483648) % 4294967296 - 2147483648

/-- The value of an `int16_t` holding the low 16 bits of `n`. -/
def wrapInt16 (n : ℤ) : ℤ := (n + 32768) % 65536 - 32768

/-- The number of low bits a magnitude `a` of a 32-bit `int` loses in a `float`:
0 below `2^24`, otherwise the `e` with `2^(23+e) ≤ a < 2^(24+e)`. -/
def float32Shift (a : ℕ) : ℕ :=
  if a < 16777216 then 0
  else if a < 33554432 then 1
  else if a < 67108864 then 2
  else if a < 134217728 then 3
  else if a < 268435456 then 4
  else if a < 536870912 then 5
  else if a < 1073741824 then 6
  else if a < 2147483648 then 7
  else 8

/-- The implicit conversion of a 32-bit `int` to `float` (binary32): the nearest
value with a 24-bit significand, a tie going to the even significand.  The
result is again an integer. -/
def intToFloat32 (n : ℤ) : ℤ :=
  let a := n.natAbs
  let e := float32Shift a
  let q := a / 2 ^ e
  let r := a % 2 ^ e
  let q := if 2 ^ e < 2 * r ∨ (2 * r = 2 ^ e ∧ q % 2 = 1) then q + 1 else q
  Int.sign n * ((q * 2 ^ e : ℕ) : ℤ)

/-- Rounding toward zero, the rule of the C conversion from `float` to an integer
type. -/
def truncToZero {α : Type} [LinearOrderedField α] [FloorRing α] (f : α) : ℤ :=
  if 0 ≤ f then ⌊f⌋ else ⌈f⌉

/-- The cast `(int16_t) f` of a `float`: the fraction is discarded.  C leaves
the result undefined when the truncated value is no `int16_t`; the model keeps
its low 16 bits there. -/
def castInt16 {α : Type} [LinearOrderedField α] [FloorRing α] (f : α) : ℤ :=
  wrapInt16 (truncToZero f)

/-! ## VectorInt16 -/

/-- The struct `VectorInt16` of three `int16_t` fields. -/
@[ext]
structure VectorInt16 where
  x : ℤ
  y : ℤ
  z : ℤ
  deriving DecidableEq, Repr

/-- Every field of `v` is a value of `int16_t`. -/
def VectorInt16.InRange (v : VectorInt16) : Prop :=
  (-32768 ≤ v.x ∧ v.x ≤ 32767) ∧ (-32768 ≤ v.y ∧ v.y ≤ 32767) ∧
    (-32768 ≤ v.z ∧ v.z ≤ 32767)

instance (v : VectorInt16) : Decidable v.InRange := by
  unfold VectorInt16.InRange; infer_instance

/-- Source function `VectorInt16_init(v)`: the value of `*v` after the call. -/
def VectorInt16_init : VectorInt16 :=
  { x := 0, y := 0, z := 0 }

/-- Source function `VectorInt16_initVal(v, nx, ny, nz)`: the value of `*v` after the call. -/
def VectorInt16_initVal (nx ny nz : ℤ) : VectorInt16 :=
  { x := nx, y := ny, z := nz }

/-- Source function `VectorInt16_getMagnitude(v)`.  The operands `v->x` etc. are promoted to
`int`, so the three squares and the two sums are 32-bit `int` arithmetic; only
the finished sum is converted to `float`, with rounding, for `sqrtf`. -/
def VectorInt16_getMagnitude {α : Type} [IntCast α] (sqrtf : α → α)
    (v : VectorInt16) : α :=
  sqrtf ((intToFloat32 (wrapInt32 (wrapInt32 (wrapInt32 (v.x * v.x) + wrapInt32 (v.y * v.y))
    + wrapInt32 (v.z * v.z))) : ℤ) : α)

/-- Source function `VectorInt16_normalize(v)`: the value of `*v` after the call.  `v->x /= m`
converts `v->x` to `float`, divides by `m` and converts the quotient back to
`int16_t`. -/
def VectorInt16_normalize {α : Type} [LinearOrderedField α] [FloorRing α]
    (sqrtf : α → α) (v : VectorInt16) : VectorInt16 :=
  let m : α := VectorInt16_getMagnitude sqrtf v
  let v := { v with x := castInt16 ((v.x : α) / m) }
  let v := { v with y := castInt16 ((v.y : α) / m) }
  let v := { v with z := castInt16 ((v.z : α) / m) }
  v

/-- Source function `VectorInt16_getNormalized(v)`: the pair of the returned `r` and the value
of `*v` after the call.  The source passes `&r` to `VectorInt16_normalize` and
never writes through `v`. -/
def VectorInt16_getNormalized {α : Type} [LinearOrderedField α] [FloorRing α]
    (sqrtf : α → α) (v : VectorInt16) : VectorInt16 × VectorInt16 :=
  let r := VectorInt16_initVal v.x v.y v.z
  let r := VectorInt16_normalize sqrtf r
  (r, v)

/-- Source function `VectorInt16_rotate(v, q)`: the value of `*v` after the call; `*q` is only
read. -/
def VectorInt16_rotate {α : Type} [LinearOrderedField α] [FloorRing α]
    (v : VectorInt16) (q : Quaternion α) : VectorInt16 :=
  let p : Quaternion α := Quaternion_initVal 0 (v.x : α) (v.y : α) (v.z : α)
  let p := Quaternion_getProduct q p
  let q_conj := Quaternion_getConjugate q
  let p := Quaternion_getProduct p q_conj
  let v := { v with x := castInt16 p.x }
  let v := { v with y := castInt16 p.y }
  let v := { v with z := castInt16 p.z }
  v

/-- Source function `VectorInt16_getRotated(v, q)`: the pair of the returned `r` and the value
of `*v` after the call.  The source passes `v` itself to `VectorInt16_rotate`. -/
def VectorInt16_getRotated {α : Type} [LinearOrderedField α] [FloorRing α]
    (v : VectorInt16) (q : Quaternion α) : VectorInt16 × VectorInt16 :=
  let r := VectorInt16_initVal v.x v.y v.z
  let v := VectorInt16_rotate v q
  (r, v)

/-! ## VectorFloat -/

/-- The struct `VectorFloat` of three `float` fields. -/
@[ext]
structure VectorFloat (α : Type) where
  x : α
  y : α
  z : α

/-- Source function `VectorFloat_init(v)`: the value of `*v` after the call. -/
def VectorFloat_init {α : Type} [Zero α] : VectorFloat α :=
  { x := 0, y := 0, z := 0 }

/-- Source function `VectorFloat_initVal(v, nx, ny, nz)`: the value of `*v` after the call. -/
def VectorFloat_initVal {α : Type} (nx ny nz : α) : VectorFloat α :=
  { x := nx, y := ny, z := nz }

/-- Source function `VectorFloat_getMagnitude(v)`, with `sqrtf` passed in. -/
def VectorFloat_getMagnitude {α : Type} [Add α] [Mul α] (sqrtf : α → α)
    (v : VectorFloat α) : α :=
  sqrtf (v.x * v.x + v.y * v.y + v.z * v.z)

/-- Source function `VectorFloat_normalize(v)`: the value of `*v` after the call. -/
def VectorFloat_normalize {α : Type} [Add α] [Mul α] [Div α] (sqrtf : α → α)
    (v : VectorFloat α) : VectorFloat α :=
  let m := VectorFloat_getMagnitude sqrtf v
  let v := { v with x := v.x / m }
  let v := { v with y := v.y / m }
  let v := { v with z := v.z / m }
  v

/-- Source function `VectorFloat_getNormalized(v)`: the pair of the returned `r` and the value
of `*v` after the call; the source normalizes the copy `r`. -/
def VectorFloat_getNormalized {α : Type} [Add α] [Mul α] [Div α] (sqrtf : α → α)
    (v : VectorFloat α) : VectorFloat α × VectorFloat α :=
  let r := VectorFloat_initVal v.x v.y v.z
  let r := VectorFloat_normalize sqrtf r
  (r, v)

/-- Source function `VectorFloat_rotate(v, q)`: the value of `*v` after the call; `*q` is only
read. -/
def VectorFloat_rotate {α : Type} [Zero α] [Add α] [Sub α] [Mul α] [Neg α]
    (v : VectorFloat α) (q : Quaternion α) : VectorFloat α :=
  let p : Quaternion α := Quaternion_initVal 0 v.x v.y v.z
  let p := Quaternion_getProduct q p
  let q_conj := Quaternion_getConjugate q
  let p := Quaternion_getProduct p q_conj
  let v := { v with x := p.x }
  let v := { v with y := p.y }
  let v := { v with z := p.z }
  v

/-- Source function `VectorFloat_getRotated(v, q)`: the pair of the returned `r` and the value
of `*v` after the call.  The source passes `v` itself to `VectorFloat_rotate`. -/
def VectorFloat_getRotated {α : Type} [Zero α] [Add α] [Sub α] [Mul α] [Neg α]
    (v : VectorFloat α) (q : Quaternion α) : VectorFloat α × VectorFloat α :=
  let r := VectorFloat_initVal v.x v.y v.z
  let v := VectorFloat_rotate v q
  (r, v)

/-! ## Quaternion product -/

/-- C1: `Quaternion_getProduct(q1, q2)` has exactly the four Hamilton-product
components of the specification, `q1` being the left factor, whatever the
arithmetic of the component type is. -/
theorem Quaternion_getProduct_formula {α : Type} [Add α] [Sub α] [Mul α]
    (q1 q2 : Quaternion α) :
    (Quaternion_getProduct q1 q2).w
        = q1.w * q2.w - q1.x * q2.x - q1.y * q2.y - q1.z * q2.z ∧
    (Quaternion_getProduct q1 q2).x
        = q1.w * q2.x + q1.x * q2.w + q1.y * q2.z - q1.z * q2.y ∧
    (Quaternion_getProduct q1 q2).y
        = q1.w * q2.y - q1.x * q2.z + q1.y * q2.w + q1.z * q2.x ∧
    (Quaternion_getProduct q1 q2).z
        = q1.w * q2.z + q1.x * q2.y - q1.y * q2.x + q1.z * q2.w :=
  ⟨rfl, rfl, rfl, rfl⟩

/-- C3: `Quaternion_getProduct` is associative when the component arithmetic is
that of a commutative ring, in particular exact real arithmetic. -/
theorem Quaternion_getProduct_assoc {α : Type} [CommRing α] (a b c : Quaternion α) :
    Quaternion_getProduct (Quaternion_getProduct a b) c
      = Quaternion_getProduct a (Quaternion_getProduct b c) := by
  ext <;> simp only [Quaternion_getProduct, Quaternion_initVal] <;> ring

/-! ## Quaternion magnitude and normalization -/

/-- The sum of squares of a normalized quaternion, over the reals. -/
theorem Quaternion_normalize_sq_sum (q : Quaternion ℝ)
    (h : Quaternion_getMagnitude Real.sqrt q ≠ 0) :
    (Quaternion_normalize Real.sqrt q).w * (Quaternion_normalize Real.sqrt q).w
      + (Quaternion_normalize Real.sqrt q).x * (Quaternion_normalize Real.sqrt q).x
      + (Quaternion_normalize Real.sqrt q).y * (Quaternion_normalize Real.sqrt q).y
      + (Quaternion_normalize Real.sqrt q).z * (Quaternion_normalize Real.sqrt q).z = 1 := by
  simp only [Quaternion_getMagnitude, Quaternion_normalize] at h ⊢
  have hpos : 0 < q.w * q.w + q.x * q.x + q.y * q.y + q.z * q.z :=
    Real.sqrt_ne_zero'.1 h
  have hne : Real.sqrt (q.w * q.w + q.x * q.x + q.y * q.y + q.z * q.z) ≠ 0 := h
  field_simp

/-- C2: over the reals, with `sqrtf` the real square root, the magnitude of
`Quaternion_getNormalized(q)` is exactly 1 whenever the magnitude of `q` is
not zero. -/
theorem Quaternion_getMagnitude_getNormalized (q : Quaternion ℝ)
    (h : Quaternion_getMagnitude Real.sqrt q ≠ 0) :
    Quaternion_getMagnitude Real.sqrt (Quaternion_getNormalized Real.sqrt q) = 1 := by
  have hq : Quaternion_getNormalized Real.sqrt q = Quaternion_normalize Real.sqrt q := rfl
  rw [hq]
  unfold Quaternion_getMagnitude
  rw [Quaternion_normalize_sq_sum q h, Real.sqrt_one]

/-- C2 at the quaternion `(1, 2, 2, 4)` of magnitude 5. -/
theorem Quaternion_getMagnitude_getNormalized_witness :
    Quaternion_getMagnitude Real.sqrt (⟨1, 2, 2, 4⟩ : Quaternion ℝ) ≠ 0 ∧
    Quaternion_getMagnitude Real.sqrt
      (Quaternion_getNormalized Real.sqrt (⟨1, 2, 2, 4⟩ : Quaternion ℝ)) = 1 :=
  have h : Quaternion_getMagnitude Real.sqrt (⟨1, 2, 2, 4⟩ : Quaternion ℝ) ≠ 0 := by
    simp only [Quaternion_getMagnitude]
    exact Real.sqrt_ne_zero'.2 (by norm_num)
  ⟨h, Quaternion_getMagnitude_getNormalized _ h⟩

/-! ## Rotation of a VectorFloat -/

/-- Rotating by `q` and then by the conjugate of `q` multiplies every component
by the square of `w² + x² + y² + z²`. -/
theorem VectorFloat_rotate_rotate_conj {α : Type} [CommRing α]
    (v : VectorFloat α) (q : Quaternion α) :
    VectorFloat_rotate (VectorFloat_rotate v q) (Quaternion_getConjugate q)
      = { x := (q.w * q.w + q.x * q.x + q.y * q.y + q.z * q.z) ^ 2 * v.x,
          y := (q.w * q.w + q.x * q.x + q.y * q.y + q.z * q.z) ^ 2 * v.y,
          z := (q.w * q.w + q.x * q.x + q.y * q.y + q.z * q.z) ^ 2 * v.z } := by
  ext <;>
    simp only [VectorFloat_rotate, Quaternion_getProduct, Quaternion_getConjugate,
      Quaternion_initVal] <;>
    ring

/-- C4 as stated fails: the quaternion `(2, 0, 0, 0)` takes `{1, 0, 0}` to
`{4, 0, 0}`, and its conjugate takes that to `{16, 0, 0}`, not back to
`{1, 0, 0}`. -/
theorem VectorFloat_rotate_conj_roundtrip_counterexample :
    VectorFloat_rotate (VectorFloat_rotate (⟨1, 0, 0⟩ : VectorFloat ℝ) ⟨2, 0, 0, 0⟩)
        (Quaternion_getConjugate ⟨2, 0, 0, 0⟩) = ⟨16, 0, 0⟩ ∧
    VectorFloat_rotate (VectorFloat_rotate (⟨1, 0, 0⟩ : VectorFloat ℝ) ⟨2, 0, 0, 0⟩)
        (Quaternion_getConjugate ⟨2, 0, 0, 0⟩) ≠ ⟨1, 0, 0⟩ := by
  have h : VectorFloat_rotate (VectorFloat_rotate (⟨1, 0, 0⟩ : VectorFloat ℝ) ⟨2, 0, 0, 0⟩)
      (Quaternion_getConjugate ⟨2, 0, 0, 0⟩) = ⟨16, 0, 0⟩ := by
    ext <;>
      simp only [VectorFloat_rotate, Quaternion_getProduct, Quaternion_getConjugate,
        Quaternion_initVal] <;>
      norm_num
  refine ⟨h, ?_⟩
  rw [h]
  intro hc
  have hx := congrArg VectorFloat.x hc
  norm_num at hx

/-- C4, amended: for every VectorFloat `v` and every unit quaternion `q`
(`w² + x² + y² + z² = 1`), rotating `v` by `q` and then rotating the result by
`Quaternion_getConjugate(q)` returns `v`. -/
theorem VectorFloat_rotate_conj_roundtrip {α : Type} [CommRing α]
    (v : VectorFloat α) (q : Quaternion α)
    (hq : q.w * q.w + q.x * q.x + q.y * q.y + q.z * q.z = 1) :
    VectorFloat_rotate (VectorFloat_rotate v q) (Quaternion_getConjugate q) = v := by
  rw [VectorFloat_rotate_rotate_conj, hq]
  ext <;> simp

/-- C4, amended, at the unit quaternion `(3/5, 0, 4/5, 0)` and the vector
`{1, 2, 3}`. -/
theorem VectorFloat_rotate_conj_roundtrip_witness :
    ((3 / 5 : ℝ) * (3 / 5) + 0 * 0 + (4 / 5) * (4 / 5) + 0 * 0 = 1) ∧
    VectorFloat_rotate
        (VectorFloat_rotate (⟨1, 2, 3⟩ : VectorFloat ℝ) ⟨3 / 5, 0, 4 / 5, 0⟩)
        (Quaternion_getConjugate ⟨3 / 5, 0, 4 / 5, 0⟩) = ⟨1, 2, 3⟩ :=
  ⟨by norm_num,
    VectorFloat_rotate_conj_roundtrip ⟨1, 2, 3⟩ ⟨3 / 5, 0, 4 / 5, 0⟩ (by norm_num)⟩

/-- C8: rotating a VectorFloat by the identity quaternion `(1, 0, 0, 0)` leaves
it unchanged; in particular `{1, 0, 0}` stays `{1, 0, 0}`. -/
theorem VectorFloat_rotate_identity {α : Type} [CommRing α] :
    (∀ v : VectorFloat α, VectorFloat_rotate v ⟨1, 0, 0, 0⟩ = v) ∧
    VectorFloat_rotate (⟨1, 0, 0⟩ : VectorFloat α) ⟨1, 0, 0, 0⟩ = ⟨1, 0, 0⟩ := by
  have h : ∀ v : VectorFloat α, VectorFloat_rotate v ⟨1, 0, 0, 0⟩ = v := by
    intro v
    ext <;>
      simp only [VectorFloat_rotate, Quaternion_getProduct, Quaternion_getConjugate,
        Quaternion_initVal] <;>
      ring
  exact ⟨h, h _⟩

/-! ## Machine integers: no wrap-around inside the range -/

theorem wrapInt32_of_range (n : ℤ) (h1 : -2147483648 ≤ n) (h2 : n ≤ 2147483647) :
    wrapInt32 n = n := by
  unfold wrapInt32
  omega

theorem wrapInt16_of_range (n : ℤ) (h1 : -32768 ≤ n) (h2 : n ≤ 32767) :
    wrapInt16 n = n := by
  unfold wrapInt16
  omega

theorem truncToZero_intCast {α : Type} [LinearOrderedField α] [FloorRing α] (n : ℤ) :
    truncToZero (n : α) = n := by
  unfold truncToZero
  split_ifs <;> simp

/-- The truncated value is no larger in absolute value than the argument. -/
theorem abs_truncToZero_le {α : Type} [LinearOrderedField α] [FloorRing α] (f : α) :
    |((truncToZero f : ℤ) : α)| ≤ |f| := by
  unfold truncToZero
  split_ifs with h
  · have h0 : (0 : α) ≤ ((⌊f⌋ : ℤ) : α) := by exact_mod_cast Int.floor_nonneg.2 h
    rw [abs_of_nonneg h0, abs_of_nonneg h]
    exact Int.floor_le f
  · have hf : f ≤ 0 := le_of_lt (not_le.1 h)
    have h0 : ((⌈f⌉ : ℤ) : α) ≤ 0 := by exact_mod_cast Int.ceil_le.2 (by simpa using hf)
    rw [abs_of_nonpos h0, abs_of_nonpos hf]
    exact neg_le_neg (Int.le_ceil f)

/-- The truncated value differs from the argument by less than 1. -/
theorem abs_sub_truncToZero_lt {α : Type} [LinearOrderedField α] [FloorRing α] (f : α) :
    |f - ((truncToZero f : ℤ) : α)| < 1 := by
  unfold truncToZero
  split_ifs with h
  · rw [abs_of_nonneg (sub_nonneg.2 (Int.floor_le f))]
    linarith [Int.lt_floor_add_one f]
  · rw [abs_of_nonpos (sub_nonpos.2 (Int.le_ceil f))]
    linarith [Int.ceil_lt_add_one f]

/-- An argument strictly between -32769 and 32768 truncates to an `int16_t`. -/
theorem truncToZero_range {α : Type} [LinearOrderedField α] [FloorRing α] (f : α)
    (h1 : -32769 < f) (h2 : f < 32768) :
    -32768 ≤ truncToZero f ∧ truncToZero f ≤ 32767 := by
  unfold truncToZero
  split_ifs with h
  · constructor
    · have := Int.floor_nonneg.2 h
      omega
    · have h3 : ⌊f⌋ < 32768 := Int.floor_lt.2 (by exact_mod_cast h2)
      omega
  · have hf : f ≤ 0 := le_of_lt (not_le.1 h)
    constructor
    · have h3 : (-32769 : ℤ) < ⌈f⌉ := Int.lt_ceil.2 (by exact_mod_cast h1)
      omega
    · have h3 : ⌈f⌉ ≤ 0 := Int.ceil_le.2 (by simpa using hf)
      omega

theorem castInt16_of_range {α : Type} [LinearOrderedField α] [FloorRing α] (f : α)
    (h1 : -32769 < f) (h2 : f < 32768) :
    castInt16 f = truncToZero f := by
  unfold castInt16
  exact wrapInt16_of_range _ (truncToZero_range f h1 h2).1 (truncToZero_range f h1 h2).2

theorem castInt16_intCast {α : Type} [LinearOrderedField α] [FloorRing α] (n : ℤ)
    (h1 : -32768 ≤ n) (h2 : n ≤ 32767) :
    castInt16 (n : α) = n := by
  unfold castInt16
  rw [truncToZero_intCast]
  exact wrapInt16_of_range n h1 h2

/-- Every integer of magnitude up to `2^24` converts to `float` unchanged. -/
theorem intToFloat32_of_le (n : ℤ) (h : n.natAbs ≤ 16777216) : intToFloat32 n = n := by
  rcases Nat.lt_or_eq_of_le h with hlt | heq
  · unfold intToFloat32
    simp only [float32Shift, if_pos hlt, pow_zero, Nat.div_one, Nat.mod_one, mul_one,
      mul_zero]
    rw [if_neg (by omega)]
    exact Int.sign_mul_natAbs n
  · rcases Int.natAbs_eq n with hn | hn
    · rw [hn, heq]
      decide
    · rw [hn, heq]
      decide

/-- While the sum of the three squares is at most `2^24`, neither the 32-bit
`int` arithmetic nor the conversion to `float` changes it: the argument of
`sqrtf` is that sum. -/
theorem VectorInt16_getMagnitude_of_fits {α : Type} [IntCast α] (sqrtf : α → α)
    (v : VectorInt16) (h : v.x * v.x + v.y * v.y + v.z * v.z ≤ 16777216) :
    VectorInt16_getMagnitude sqrtf v
      = sqrtf ((v.x * v.x + v.y * v.y + v.z * v.z : ℤ) : α) := by
  have hx := mul_self_nonneg v.x
  have hy := mul_self_nonneg v.y
  have hz := mul_self_nonneg v.z
  unfold VectorInt16_getMagnitude
  rw [wrapInt32_of_range (v.x * v.x) (by omega) (by omega),
    wrapInt32_of_range (v.y * v.y) (by omega) (by omega),
    wrapInt32_of_range (v.z * v.z) (by omega) (by omega),
    wrapInt32_of_range (v.x * v.x + v.y * v.y) (by omega) (by omega),
    wrapInt32_of_range (v.x * v.x + v.y * v.y + v.z * v.z) (by omega) (by omega),
    intToFloat32_of_le (v.x * v.x + v.y * v.y + v.z * v.z) (by omega)]

/-! ## VectorInt16: magnitude -/

/-- The magnitude of `{3, 4, 0}` is exactly 5. -/
theorem VectorInt16_getMagnitude_3_4_0 :
    VectorInt16_getMagnitude Real.sqrt ⟨3, 4, 0⟩ = 5 := by
  rw [VectorInt16_getMagnitude_of_fits Real.sqrt ⟨3, 4, 0⟩ (by decide)]
  have h : (((3 * 3 + 4 * 4 + 0 * 0 : ℤ)) : ℝ) = 5 * 5 := by norm_num
  show Real.sqrt (((3 * 3 + 4 * 4 + 0 * 0 : ℤ)) : ℝ) = 5
  rw [h]
  exact Real.sqrt_mul_self (by norm_num)

/-- C5: at `{30000, 30000, 30000}` the sum of the squares, 2700000000, does not
fit the 32-bit `int` in which the source forms it: `sqrtf` receives
-1594967296, and with the real square root the result is not the square root
of the mathematical sum. -/
theorem VectorInt16_getMagnitude_overflow :
    (∀ sqrtf : ℝ → ℝ,
      VectorInt16_getMagnitude sqrtf ⟨30000, 30000, 30000⟩ = sqrtf (-1594967296)) ∧
    VectorInt16_getMagnitude Real.sqrt ⟨30000, 30000, 30000⟩
      ≠ Real.sqrt ((30000 * 30000 + 30000 * 30000 + 30000 * 30000 : ℤ) : ℝ) := by
  have hw : intToFloat32 (wrapInt32 (wrapInt32 (wrapInt32 (30000 * 30000)
      + wrapInt32 (30000 * 30000)) + wrapInt32 (30000 * 30000))) = -1594967296 := by decide
  have h : ∀ sqrtf : ℝ → ℝ,
      VectorInt16_getMagnitude sqrtf ⟨30000, 30000, 30000⟩ = sqrtf (-1594967296) := by
    intro sqrtf
    show sqrtf ((intToFloat32 (wrapInt32 (wrapInt32 (wrapInt32 (30000 * 30000)
      + wrapInt32 (30000 * 30000)) + wrapInt32 (30000 * 30000))) : ℤ) : ℝ)
      = sqrtf (-1594967296)
    rw [hw]
    norm_num
  refine ⟨h, ?_⟩
  rw [h Real.sqrt, Real.sqrt_eq_zero_of_nonpos (by norm_num)]
  exact (Real.sqrt_pos.2 (by norm_num)).ne

/-! ## VectorInt16: normalization -/

/-- In-place normalization takes `{3, 4, 0}` to `{0, 0, 0}`. -/
theorem VectorInt16_normalize_3_4_0 :
    VectorInt16_normalize Real.sqrt ⟨3, 4, 0⟩ = ⟨0, 0, 0⟩ := by
  have hx : castInt16 ((3 : ℝ) / 5) = 0 := by
    have ht : truncToZero ((3 : ℝ) / 5) = 0 := by
      unfold truncToZero
      rw [if_pos (by norm_num)]
      exact Int.floor_eq_iff.2 ⟨by norm_num, by norm_num⟩
    unfold castInt16
    rw [ht]
    decide
  have hy : castInt16 ((4 : ℝ) / 5) = 0 := by
    have ht : truncToZero ((4 : ℝ) / 5) = 0 := by
      unfold truncToZero
      rw [if_pos (by norm_num)]
      exact Int.floor_eq_iff.2 ⟨by norm_num, by norm_num⟩
    unfold castInt16
    rw [ht]
    decide
  have hz : castInt16 ((0 : ℝ) / 5) = 0 := by
    have h0 : ((0 : ℝ) / 5) = ((0 : ℤ) : ℝ) := by norm_num
    rw [h0]
    exact castInt16_intCast 0 (by decide) (by decide)
  simp only [VectorInt16_normalize, VectorInt16_getMagnitude_3_4_0]
  ext
  · simpa using hx
  · simpa using hy
  · simpa using hz

/-- C6 as stated fails: for `{3, 4, 0}` the function returns the normalized
`{0, 0, 0}`, not the unchanged copy, and the argument still holds `{3, 4, 0}`,
not the normalized value. -/
theorem VectorInt16_getNormalized_counterexample :
    VectorInt16_getNormalized Real.sqrt ⟨3, 4, 0⟩ = (⟨0, 0, 0⟩, ⟨3, 4, 0⟩) ∧
    VectorInt16_getNormalized Real.sqrt ⟨3, 4, 0⟩
      ≠ (⟨3, 4, 0⟩, VectorInt16_normalize Real.sqrt ⟨3, 4, 0⟩) := by
  have h : VectorInt16_getNormalized Real.sqrt ⟨3, 4, 0⟩ = (⟨0, 0, 0⟩, ⟨3, 4, 0⟩) := by
    show (VectorInt16_normalize Real.sqrt ⟨3, 4, 0⟩, (⟨3, 4, 0⟩ : VectorInt16))
      = (⟨0, 0, 0⟩, ⟨3, 4, 0⟩)
    rw [VectorInt16_normalize_3_4_0]
  refine ⟨h, ?_⟩
  rw [h, VectorInt16_normalize_3_4_0]
  decide

/-- C6, amended: `VectorInt16_getNormalized(v)` returns the value that
`VectorInt16_normalize` produces from `v`, and the argument `v` is unchanged
after the call. -/
theorem VectorInt16_getNormalized_copy {α : Type} [LinearOrderedField α] [FloorRing α]
    (sqrtf : α → α) (v : VectorInt16) :
    (VectorInt16_getNormalized sqrtf v).1 = VectorInt16_normalize sqrtf v ∧
    (VectorInt16_getNormalized sqrtf v).2 = v :=
  ⟨rfl, rfl⟩

/-! ## VectorInt16: rotation -/

/-- C7: `VectorInt16_getRotated(v, q)` returns the components `v` had before
the call, and afterwards the argument holds what `VectorInt16_rotate(v, q)`
produces. -/
theorem VectorInt16_getRotated_aliasing {α : Type} [LinearOrderedField α] [FloorRing α]
    (v : VectorInt16) (q : Quaternion α) :
    (VectorInt16_getRotated v q).1 = v ∧
    (VectorInt16_getRotated v q).2 = VectorInt16_rotate v q :=
  ⟨rfl, rfl⟩

/-- C9: rotating a VectorInt16 whose fields are `int16_t` values by the
identity quaternion `(1, 0, 0, 0)` leaves it exactly unchanged. -/
theorem VectorInt16_rotate_identity {α : Type} [LinearOrderedField α] [FloorRing α]
    (v : VectorInt16) (hv : v.InRange) :
    VectorInt16_rotate v (⟨1, 0, 0, 0⟩ : Quaternion α) = v := by
  obtain ⟨⟨hx1, hx2⟩, ⟨hy1, hy2⟩, ⟨hz1, hz2⟩⟩ := hv
  have ex : (1 * 0 - 0 * (v.x : α) - 0 * (v.y : α) - 0 * (v.z : α)) * -0
      + (1 * (v.x : α) + 0 * 0 + 0 * (v.z : α) - 0 * (v.y : α)) * 1
      + (1 * (v.y : α) - 0 * (v.z : α) + 0 * 0 + 0 * (v.x : α)) * -0
      - (1 * (v.z : α) + 0 * (v.y : α) - 0 * (v.x : α) + 0 * 0) * -0 = (v.x : α) := by ring
  have ey : (1 * 0 - 0 * (v.x : α) - 0 * (v.y : α) - 0 * (v.z : α)) * -0
      - (1 * (v.x : α) + 0 * 0 + 0 * (v.z : α) - 0 * (v.y : α)) * -0
      + (1 * (v.y : α) - 0 * (v.z : α) + 0 * 0 + 0 * (v.x : α)) * 1
      + (1 * (v.z : α) + 0 * (v.y : α) - 0 * (v.x : α) + 0 * 0) * -0 = (v.y : α) := by ring
  have ez : (1 * 0 - 0 * (v.x : α) - 0 * (v.y : α) - 0 * (v.z : α)) * -0
      + (1 * (v.x : α) + 0 * 0 + 0 * (v.z : α) - 0 * (v.y : α)) * -0
      - (1 * (v.y : α) - 0 * (v.z : α) + 0 * 0 + 0 * (v.x : α)) * -0
      + (1 * (v.z : α) + 0 * (v.y : α) - 0 * (v.x : α) + 0 * 0) * 1 = (v.z : α) := by ring
  ext
  · show castInt16 _ = v.x
    simp only [Quaternion_getProduct, Quaternion_getConjugate, Quaternion_initVal]
    rw [ex]
    exact castInt16_intCast v.x hx1 hx2
  · show castInt16 _ = v.y
    simp only [Quaternion_getProduct, Quaternion_getConjugate, Quaternion_initVal]
    rw [ey]
    exact castInt16_intCast v.y hy1 hy2
  · show castInt16 _ = v.z
    simp only [Quaternion_getProduct, Quaternion_getConjugate, Quaternion_initVal]
    rw [ez]
    exact castInt16_intCast v.z hz1 hz2

/-- C9 at the extreme `int16_t` values. -/
theorem VectorInt16_rotate_identity_witness :
    (⟨-32768, 32767, 5⟩ : VectorInt16).InRange ∧
    VectorInt16_rotate ⟨-32768, 32767, 5⟩ (⟨1, 0, 0, 0⟩ : Quaternion ℝ)
      = ⟨-32768, 32767, 5⟩ :=
  ⟨by decide, VectorInt16_rotate_identity ⟨-32768, 32767, 5⟩ (by decide)⟩

/-- C10: with `p` the sandwich product `q * (0, v.x, v.y, v.z) * conj(q)` formed
from the old `v`, and its `x`, `y`, `z` components inside the `int16_t` range,
`VectorInt16_rotate(v, q)` leaves in `v` those three components truncated
toward zero: each new field is `truncToZero` of the component, is no larger
than it in absolute value and differs from it by less than 1. -/
theorem VectorInt16_rotate_sandwich {α : Type} [LinearOrderedField α] [FloorRing α]
    (v : VectorInt16) (q p : Quaternion α)
    (hp : p = Quaternion_getProduct
      (Quaternion_getProduct q (Quaternion_initVal 0 (v.x : α) (v.y : α) (v.z : α)))
      (Quaternion_getConjugate q))
    (hx : -32768 ≤ p.x ∧ p.x ≤ 32767) (hy : -32768 ≤ p.y ∧ p.y ≤ 32767)
    (hz : -32768 ≤ p.z ∧ p.z ≤ 32767) :
    VectorInt16_rotate v q = ⟨truncToZero p.x, truncToZero p.y, truncToZero p.z⟩ ∧
    (|(((VectorInt16_rotate v q).x : ℤ) : α)| ≤ |p.x| ∧
      |p.x - (((VectorInt16_rotate v q).x : ℤ) : α)| < 1) ∧
    (|(((VectorInt16_rotate v q).y : ℤ) : α)| ≤ |p.y| ∧
      |p.y - (((VectorInt16_rotate v q).y : ℤ) : α)| < 1) ∧
    (|(((VectorInt16_rotate v q).z : ℤ) : α)| ≤ |p.z| ∧
      |p.z - (((VectorInt16_rotate v q).z : ℤ) : α)| < 1) := by
  have h : VectorInt16_rotate v q
      = ⟨truncToZero p.x, truncToZero p.y, truncToZero p.z⟩ := by
    have e : VectorInt16_rotate v q = ⟨castInt16 p.x, castInt16 p.y, castInt16 p.z⟩ := by
      rw [hp]
      rfl
    rw [e, castInt16_of_range p.x (by linarith [hx.1]) (by linarith [hx.2]),
      castInt16_of_range p.y (by linarith [hy.1]) (by linarith [hy.2]),
      castInt16_of_range p.z (by linarith [hz.1]) (by linarith [hz.2])]
  rw [h]
  exact ⟨rfl, ⟨abs_truncToZero_le p.x, abs_sub_truncToZero_lt p.x⟩,
    ⟨abs_truncToZero_le p.y, abs_sub_truncToZero_lt p.y⟩,
    ⟨abs_truncToZero_le p.z, abs_sub_truncToZero_lt p.z⟩⟩

/-- C10 at `v = {3, 4, -5}` and `q = (1/2, 1/2, 1/2, 1/3)`, where the sandwich
product is `(0, -37/12, 35/9, 127/36)`. -/
theorem VectorInt16_rotate_sandwich_witness :
    ((⟨0, -37 / 12, 35 / 9, 127 / 36⟩ : Quaternion ℝ) = Quaternion_getProduct
      (Quaternion_getProduct ⟨1 / 2, 1 / 2, 1 / 2, 1 / 3⟩
        (Quaternion_initVal 0 ((3 : ℤ) : ℝ) ((4 : ℤ) : ℝ) ((-5 : ℤ) : ℝ)))
      (Quaternion_getConjugate ⟨1 / 2, 1 / 2, 1 / 2, 1 / 3⟩)) ∧
    VectorInt16_rotate ⟨3, 4, -5⟩ (⟨1 / 2, 1 / 2, 1 / 2, 1 / 3⟩ : Quaternion ℝ)
      = ⟨truncToZero (-37 / 12 : ℝ), truncToZero (35 / 9 : ℝ), truncToZero (127 / 36 : ℝ)⟩ := by
  have hp : (⟨0, -37 / 12, 35 / 9, 127 / 36⟩ : Quaternion ℝ) = Quaternion_getProduct
      (Quaternion_getProduct ⟨1 / 2, 1 / 2, 1 / 2, 1 / 3⟩
        (Quaternion_initVal 0 ((3 : ℤ) : ℝ) ((4 : ℤ) : ℝ) ((-5 : ℤ) : ℝ)))
      (Quaternion_getConjugate ⟨1 / 2, 1 / 2, 1 / 2, 1 / 3⟩) := by
    ext <;>
      simp only [Quaternion_getProduct, Quaternion_getConjugate, Quaternion_initVal] <;>
      norm_num
  exact ⟨hp, (VectorInt16_rotate_sandwich ⟨3, 4, -5⟩ ⟨1 / 2, 1 / 2, 1 / 2, 1 / 3⟩
    ⟨0, -37 / 12, 35 / 9, 127 / 36⟩ hp
    ⟨by norm_num, by norm_num⟩ ⟨by norm_num, by norm_num⟩ ⟨by norm_num, by norm_num⟩).1⟩

/-! ## Algebra of the quaternion product and conjugate -/

/-- C11: the scalar component the rotate functions discard is zero: for every
quaternion `q` and every vector `(x, y, z)` the `w` component of
`q * (0, x, y, z) * conj(q)` is 0. -/
theorem Quaternion_sandwich_w_zero {α : Type} [CommRing α] (q : Quaternion α) (x y z : α) :
    (Quaternion_getProduct (Quaternion_getProduct q (Quaternion_initVal 0 x y z))
      (Quaternion_getConjugate q)).w = 0 := by
  simp only [Quaternion_getProduct, Quaternion_getConjugate, Quaternion_initVal]
  ring

/-- The product of a quaternion with its conjugate, in either order, is the sum
of the squares of the components in the scalar part and zero elsewhere. -/
theorem Quaternion_getProduct_getConjugate {α : Type} [CommRing α] (q : Quaternion α) :
    Quaternion_getProduct q (Quaternion_getConjugate q)
      = ⟨q.w * q.w + q.x * q.x + q.y * q.y + q.z * q.z, 0, 0, 0⟩ ∧
    Quaternion_getProduct (Quaternion_getConjugate q) q
      = ⟨q.w * q.w + q.x * q.x + q.y * q.y + q.z * q.z, 0, 0, 0⟩ := by
  constructor <;> ext <;>
    simp only [Quaternion_getProduct, Quaternion_getConjugate, Quaternion_initVal] <;>
    ring

/-- C12: for a unit quaternion `q` (`w² + x² + y² + z² = 1`) the conjugate is a
two-sided inverse: both products of `q` and `Quaternion_getConjugate(q)` are
the identity `(1, 0, 0, 0)`. -/
theorem Quaternion_getConjugate_inverse {α : Type} [CommRing α] (q : Quaternion α)
    (hq : q.w * q.w + q.x * q.x + q.y * q.y + q.z * q.z = 1) :
    Quaternion_getProduct q (Quaternion_getConjugate q) = ⟨1, 0, 0, 0⟩ ∧
    Quaternion_getProduct (Quaternion_getConjugate q) q = ⟨1, 0, 0, 0⟩ := by
  have h := Quaternion_getProduct_getConjugate q
  rw [hq] at h
  exact h

/-- C12 at the unit quaternion `(1/2, 1/2, 1/2, 1/2)`. -/
theorem Quaternion_getConjugate_inverse_witness :
    ((1 / 2 : ℝ) * (1 / 2) + (1 / 2) * (1 / 2) + (1 / 2) * (1 / 2) + (1 / 2) * (1 / 2) = 1) ∧
    Quaternion_getProduct (⟨1 / 2, 1 / 2, 1 / 2, 1 / 2⟩ : Quaternion ℝ)
      (Quaternion_getConjugate ⟨1 / 2, 1 / 2, 1 / 2, 1 / 2⟩) = ⟨1, 0, 0, 0⟩ ∧
    Quaternion_getProduct (Quaternion_getConjugate ⟨1 / 2, 1 / 2, 1 / 2, 1 / 2⟩)
      (⟨1 / 2, 1 / 2, 1 / 2, 1 / 2⟩ : Quaternion ℝ) = ⟨1, 0, 0, 0⟩ :=
  ⟨by norm_num,
    Quaternion_getConjugate_inverse ⟨1 / 2, 1 / 2, 1 / 2, 1 / 2⟩ (by norm_num)⟩

/-- C13: the conjugate of the conjugate of `q` is `q`, the conjugate is
`(w, -x, -y, -z)`, and the call leaves `*q` as it was; this needs only that
negation cancels itself. -/
theorem Quaternion_getConjugate_involutive {α : Type} [InvolutiveNeg α] (q : Quaternion α) :
    Quaternion_getConjugate (Quaternion_getConjugate q) = q ∧
    Quaternion_getConjugate q = ⟨q.w, - q.x, - q.y, - q.z⟩ ∧
    (Quaternion_getConjugate_call q).1 = Quaternion_getConjugate q ∧
    (Quaternion_getConjugate_call q).2 = q := by
  refine ⟨?_, rfl, rfl, rfl⟩
  ext <;> simp only [Quaternion_getConjugate, Quaternion_initVal, neg_neg]

/-- C14: `Quaternion_getProduct` is not commutative: `(0,1,0,0) * (0,0,1,0)` is
`(0,0,0,1)` and the product in the other order is `(0,0,0,-1)`. -/
theorem Quaternion_getProduct_not_comm :
    Quaternion_getProduct (⟨0, 1, 0, 0⟩ : Quaternion ℝ) ⟨0, 0, 1, 0⟩
      ≠ Quaternion_getProduct (⟨0, 0, 1, 0⟩ : Quaternion ℝ) ⟨0, 1, 0, 0⟩ ∧
    ∃ a b : Quaternion ℝ, Quaternion_getProduct a b ≠ Quaternion_getProduct b a := by
  have h : Quaternion_getProduct (⟨0, 1, 0, 0⟩ : Quaternion ℝ) ⟨0, 0, 1, 0⟩
      ≠ Quaternion_getProduct (⟨0, 0, 1, 0⟩ : Quaternion ℝ) ⟨0, 1, 0, 0⟩ := by
    intro hc
    have hz := congrArg Quaternion.z hc
    simp only [Quaternion_getProduct, Quaternion_initVal] at hz
    norm_num at hz
  exact ⟨h, _, _, h⟩

/-- C15: the quaternion written by `Quaternion_init` is `(1, 0, 0, 0)`, and it
is a left and right identity of `Quaternion_getProduct`; in particular
`(1,0,0,0) * (1,0,0,0) = (1,0,0,0)`. -/
theorem Quaternion_init_identity {α : Type} [CommRing α] :
    (Quaternion_init : Quaternion α) = ⟨1, 0, 0, 0⟩ ∧
    (∀ q : Quaternion α, Quaternion_getProduct Quaternion_init q = q) ∧
    (∀ q : Quaternion α, Quaternion_getProduct q Quaternion_init = q) ∧
    Quaternion_getProduct (⟨1, 0, 0, 0⟩ : Quaternion α) ⟨1, 0, 0, 0⟩ = ⟨1, 0, 0, 0⟩ := by
  have hl : ∀ q : Quaternion α, Quaternion_getProduct Quaternion_init q = q := by
    intro q
    ext <;> simp only [Quaternion_getProduct, Quaternion_init, Quaternion_initVal] <;> ring
  have hr : ∀ q : Quaternion α, Quaternion_getProduct q Quaternion_init = q := by
    intro q
    ext <;> simp only [Quaternion_getProduct, Quaternion_init, Quaternion_initVal] <;> ring
  exact ⟨rfl, hl, hr, hl ⟨1, 0, 0, 0⟩⟩

/-- C16: `Quaternion_getNormalized(q)` leaves `*q` as it was and returns the
quaternion whose components are those of `q` divided by
`Quaternion_getMagnitude(q)`, which is the value `Quaternion_normalize` writes
into `*q`. -/
theorem Quaternion_getNormalized_frame {α : Type} [Add α] [Mul α] [Div α]
    (sqrtf : α → α) (q : Quaternion α) :
    (Quaternion_getNormalized_call sqrtf q).2 = q ∧
    (Quaternion_getNormalized_call sqrtf q).1
      = ⟨q.w / Quaternion_getMagnitude sqrtf q, q.x / Quaternion_getMagnitude sqrtf q,
         q.y / Quaternion_getMagnitude sqrtf q, q.z / Quaternion_getMagnitude sqrtf q⟩ ∧
    (Quaternion_getNormalized_call sqrtf q).1 = Quaternion_normalize sqrtf q ∧
    Quaternion_getNormalized sqrtf q = (Quaternion_getNormalized_call sqrtf q).1 :=
  ⟨rfl, rfl, rfl, rfl⟩

/-- The conjugate of a product is the product of the conjugates in the other
order. -/
theorem Quaternion_getConjugate_getProduct {α : Type} [CommRing α] (a b : Quaternion α) :
    Quaternion_getConjugate (Quaternion_getProduct a b)
      = Quaternion_getProduct (Quaternion_getConjugate b) (Quaternion_getConjugate a) := by
  ext <;>
    simp only [Quaternion_getProduct, Quaternion_getConjugate, Quaternion_initVal] <;>
    ring

/-- C19: rotating a VectorFloat by `q2` and then by `q1` is one rotation by
`Quaternion_getProduct(q1, q2)`. -/
theorem VectorFloat_rotate_compose {α : Type} [CommRing α]
    (v : VectorFloat α) (q1 q2 : Quaternion α) :
    VectorFloat_rotate (VectorFloat_rotate v q2) q1
      = VectorFloat_rotate v (Quaternion_getProduct q1 q2) := by
  ext <;>
    simp only [VectorFloat_rotate, Quaternion_getProduct, Quaternion_getConjugate,
      Quaternion_initVal] <;>
    ring

/-! ## Magnitude of a product -/

/-- C18: over the reals the magnitude is multiplicative,
`|a * b| = |a| * |b|`, so the product of two quaternions of magnitude 1 has
magnitude 1. -/
theorem Quaternion_getMagnitude_getProduct (a b : Quaternion ℝ) :
    Quaternion_getMagnitude Real.sqrt (Quaternion_getProduct a b)
      = Quaternion_getMagnitude Real.sqrt a * Quaternion_getMagnitude Real.sqrt b ∧
    (Quaternion_getMagnitude Real.sqrt a = 1 → Quaternion_getMagnitude Real.sqrt b = 1 →
      Quaternion_getMagnitude Real.sqrt (Quaternion_getProduct a b) = 1) := by
  have ha : 0 ≤ a.w * a.w + a.x * a.x + a.y * a.y + a.z * a.z := by
    nlinarith [mul_self_nonneg a.w, mul_self_nonneg a.x, mul_self_nonneg a.y,
      mul_self_nonneg a.z]
  have h : Quaternion_getMagnitude Real.sqrt (Quaternion_getProduct a b)
      = Quaternion_getMagnitude Real.sqrt a * Quaternion_getMagnitude Real.sqrt b := by
    simp only [Quaternion_getMagnitude, Quaternion_getProduct, Quaternion_initVal]
    rw [← Real.sqrt_mul ha]
    congr 1
    ring
  refine ⟨h, fun h1 h2 => ?_⟩
  rw [h, h1, h2, mul_one]

/-- C18 at the unit quaternions `(0, 1, 0, 0)` and `(0, 0, 1, 0)`. -/
theorem Quaternion_getMagnitude_getProduct_witness :
    Quaternion_getMagnitude Real.sqrt (⟨0, 1, 0, 0⟩ : Quaternion ℝ) = 1 ∧
    Quaternion_getMagnitude Real.sqrt (⟨0, 0, 1, 0⟩ : Quaternion ℝ) = 1 ∧
    Quaternion_getMagnitude Real.sqrt
      (Quaternion_getProduct (⟨0, 1, 0, 0⟩ : Quaternion ℝ) ⟨0, 0, 1, 0⟩) = 1 :=
  have h1 : Quaternion_getMagnitude Real.sqrt (⟨0, 1, 0, 0⟩ : Quaternion ℝ) = 1 := by
    simp [Quaternion_getMagnitude]
  have h2 : Quaternion_getMagnitude Real.sqrt (⟨0, 0, 1, 0⟩ : Quaternion ℝ) = 1 := by
    simp [Quaternion_getMagnitude]
  ⟨h1, h2, (Quaternion_getMagnitude_getProduct ⟨0, 1, 0, 0⟩ ⟨0, 0, 1, 0⟩).2 h1 h2⟩

/-! ## Round trip of a rotation and its conjugate -/

/-- C20: rotating by `q` and then by `Quaternion_getConjugate(q)` multiplies
every component of `v` by `n²`, where `n = w² + x² + y² + z²`; the round trip
gives back every `v` exactly when `n² = 1`, which is exactly when `n = 1`,
that is when `q` is a unit quaternion.  Nothing in `VectorFloat_rotate` rescales
`q`. -/
theorem VectorFloat_rotate_conj_scaling {α : Type} [LinearOrderedField α]
    (q : Quaternion α) :
    (∀ v : VectorFloat α,
      VectorFloat_rotate (VectorFloat_rotate v q) (Quaternion_getConjugate q)
        = ⟨(q.w * q.w + q.x * q.x + q.y * q.y + q.z * q.z) ^ 2 * v.x,
           (q.w * q.w + q.x * q.x + q.y * q.y + q.z * q.z) ^ 2 * v.y,
           (q.w * q.w + q.x * q.x + q.y * q.y + q.z * q.z) ^ 2 * v.z⟩) ∧
    ((∀ v : VectorFloat α,
      VectorFloat_rotate (VectorFloat_rotate v q) (Quaternion_getConjugate q) = v)
        ↔ (q.w * q.w + q.x * q.x + q.y * q.y + q.z * q.z) ^ 2 = 1) ∧
    ((q.w * q.w + q.x * q.x + q.y * q.y + q.z * q.z) ^ 2 = 1
        ↔ q.w * q.w + q.x * q.x + q.y * q.y + q.z * q.z = 1) := by
  have hn : 0 ≤ q.w * q.w + q.x * q.x + q.y * q.y + q.z * q.z := by
    nlinarith [mul_self_nonneg q.w, mul_self_nonneg q.x, mul_self_nonneg q.y,
      mul_self_nonneg q.z]
  refine ⟨fun v => VectorFloat_rotate_rotate_conj v q, ⟨fun h => ?_, fun h v => ?_⟩,
    pow_eq_one_iff_of_nonneg hn (by norm_num)⟩
  · have h1 := h ⟨1, 0, 0⟩
    rw [VectorFloat_rotate_rotate_conj] at h1
    have hx := congrArg VectorFloat.x h1
    simpa using hx
  · rw [VectorFloat_rotate_rotate_conj, h]
    ext <;> simp

/-! ## VectorInt16: normalization collapses by truncation -/

/-- An argument of absolute value below 1 truncates to 0. -/
theorem truncToZero_of_abs_lt_one {α : Type} [LinearOrderedField α] [FloorRing α] (f : α)
    (h : |f| < 1) : truncToZero f = 0 := by
  have hf := abs_lt.1 h
  unfold truncToZero
  split_ifs with h0
  · exact Int.floor_eq_zero_iff.2 ⟨h0, hf.2⟩
  · exact Int.ceil_eq_zero_iff.2 ⟨hf.1, le_of_lt (not_le.1 h0)⟩

/-- One component of the normalization: `x` divided by the square root of a
positive integer `s` with `x² ≤ s` converts to the sign of `x` when `x² = s`
and to 0 otherwise. -/
theorem castInt16_div_sqrt (x s : ℤ) (hs : 0 < s) (hx : x * x ≤ s) :
    castInt16 ((x : ℝ) / Real.sqrt (s : ℝ)) = if x * x = s then Int.sign x else 0 := by
  split_ifs with h
  · have hsr : (s : ℝ) = (x : ℝ) * (x : ℝ) := by
      rw [← h]
      push_cast
      ring
    rw [hsr, Real.sqrt_mul_self_eq_abs]
    have hx0 : x ≠ 0 := by
      rintro rfl
      simp at h
      omega
    rcases lt_or_gt_of_ne hx0 with hneg | hpos
    · have hr : (x : ℝ) < 0 := by exact_mod_cast hneg
      have e : (x : ℝ) / |(x : ℝ)| = ((-1 : ℤ) : ℝ) := by
        rw [abs_of_neg hr, div_neg, div_self hr.ne]
        norm_num
      rw [e, Int.sign_eq_neg_one_of_neg hneg]
      exact castInt16_intCast (-1) (by decide) (by decide)
    · have hr : (0 : ℝ) < (x : ℝ) := by exact_mod_cast hpos
      have e : (x : ℝ) / |(x : ℝ)| = ((1 : ℤ) : ℝ) := by
        rw [abs_of_pos hr, div_self hr.ne.symm]
        norm_num
      rw [e, Int.sign_eq_one_of_pos hpos]
      exact castInt16_intCast 1 (by decide) (by decide)
  · have hlt : x * x < s := lt_of_le_of_ne hx h
    have hsr : (x : ℝ) * (x : ℝ) < (s : ℝ) := by exact_mod_cast hlt
    have hm : |(x : ℝ)| < Real.sqrt (s : ℝ) := by
      rw [← Real.sqrt_mul_self_eq_abs]
      exact Real.sqrt_lt_sqrt (mul_self_nonneg _) hsr
    have hpos : 0 < Real.sqrt (s : ℝ) := lt_of_le_of_lt (abs_nonneg _) hm
    have hq : |(x : ℝ) / Real.sqrt (s : ℝ)| < 1 := by
      rw [abs_div, abs_of_pos hpos]
      exact (div_lt_one hpos).2 hm
    unfold castInt16
    rw [truncToZero_of_abs_lt_one _ hq]
    decide

/-- The value `VectorInt16_normalize` leaves in a non-zero `v` whose sum of
squares is at most `2^24`: a component keeps its sign when the two other
components are 0 and becomes 0 otherwise. -/
theorem VectorInt16_normalize_components (v : VectorInt16)
    (hne : v.x ≠ 0 ∨ v.y ≠ 0 ∨ v.z ≠ 0)
    (hfit : v.x * v.x + v.y * v.y + v.z * v.z ≤ 16777216) :
    VectorInt16_normalize Real.sqrt v
      = ⟨if v.y = 0 ∧ v.z = 0 then Int.sign v.x else 0,
         if v.x = 0 ∧ v.z = 0 then Int.sign v.y else 0,
         if v.x = 0 ∧ v.y = 0 then Int.sign v.z else 0⟩ := by
  have hx := mul_self_nonneg v.x
  have hy := mul_self_nonneg v.y
  have hz := mul_self_nonneg v.z
  have hs : 0 < v.x * v.x + v.y * v.y + v.z * v.z := by
    rcases hne with h | h | h
    · have := mul_self_pos.2 h
      omega
    · have := mul_self_pos.2 h
      omega
    · have := mul_self_pos.2 h
      omega
  have ix : v.x * v.x = v.x * v.x + v.y * v.y + v.z * v.z ↔ v.y = 0 ∧ v.z = 0 := by
    rw [← mul_self_add_mul_self_eq_zero]
    constructor <;> intro h <;> omega
  have iy : v.y * v.y = v.x * v.x + v.y * v.y + v.z * v.z ↔ v.x = 0 ∧ v.z = 0 := by
    rw [← mul_self_add_mul_self_eq_zero]
    constructor <;> intro h <;> omega
  have iz : v.z * v.z = v.x * v.x + v.y * v.y + v.z * v.z ↔ v.x = 0 ∧ v.y = 0 := by
    rw [← mul_self_add_mul_self_eq_zero]
    constructor <;> intro h <;> omega
  have e : VectorInt16_normalize Real.sqrt v
      = ⟨castInt16 ((v.x : ℝ) / VectorInt16_getMagnitude Real.sqrt v),
         castInt16 ((v.y : ℝ) / VectorInt16_getMagnitude Real.sqrt v),
         castInt16 ((v.z : ℝ) / VectorInt16_getMagnitude Real.sqrt v)⟩ := rfl
  rw [e, VectorInt16_getMagnitude_of_fits Real.sqrt v hfit,
    castInt16_div_sqrt v.x _ hs (by omega), castInt16_div_sqrt v.y _ hs (by omega),
    castInt16_div_sqrt v.z _ hs (by omega)]
  simp only [ix, iy, iz]

/-- The sign of an integer is -1, 0 or 1. -/
theorem Int_sign_trichotomy (n : ℤ) : Int.sign n = -1 ∨ Int.sign n = 0 ∨ Int.sign n = 1 := by
  rcases lt_trichotomy n 0 with h | h | h
  · exact Or.inl (Int.sign_eq_neg_one_of_neg h)
  · exact Or.inr (Or.inl (by rw [h]; rfl))
  · exact Or.inr (Or.inr (Int.sign_eq_one_of_pos h))

/-- C17 as stated fails: the sum of squares of `{4096, 1, 0}` is 16777217, which
fits the 32-bit `int` but converts to the `float` 16777216, so the magnitude is
4096 and the vector becomes `{1, 0, 0}`: it has two non-zero components and
does not collapse to `{0, 0, 0}`, and its `x` stays non-zero although `y` was
not 0. -/
theorem VectorInt16_normalize_degenerate_counterexample :
    (⟨4096, 1, 0⟩ : VectorInt16) ≠ ⟨0, 0, 0⟩ ∧
    ((4096 : ℤ) * 4096 + 1 * 1 + 0 * 0 ≤ 2147483647) ∧
    VectorInt16_normalize Real.sqrt ⟨4096, 1, 0⟩ = ⟨1, 0, 0⟩ ∧
    VectorInt16_normalize Real.sqrt ⟨4096, 1, 0⟩ ≠ ⟨0, 0, 0⟩ := by
  have hw : intToFloat32 (wrapInt32 (wrapInt32 (wrapInt32 (4096 * 4096) + wrapInt32 (1 * 1))
      + wrapInt32 (0 * 0))) = 16777216 := by decide
  have hm : VectorInt16_getMagnitude Real.sqrt ⟨4096, 1, 0⟩ = 4096 := by
    show Real.sqrt ((intToFloat32 (wrapInt32 (wrapInt32 (wrapInt32 (4096 * 4096)
      + wrapInt32 (1 * 1)) + wrapInt32 (0 * 0))) : ℤ) : ℝ) = 4096
    rw [hw]
    have h : (((16777216 : ℤ)) : ℝ) = 4096 * 4096 := by norm_num
    rw [h]
    exact Real.sqrt_mul_self (by norm_num)
  have hx : castInt16 ((((4096 : ℤ)) : ℝ) / 4096) = 1 := by
    have h1 : (((4096 : ℤ)) : ℝ) / 4096 = ((1 : ℤ) : ℝ) := by norm_num
    rw [h1]
    exact castInt16_intCast 1 (by decide) (by decide)
  have hy : castInt16 ((((1 : ℤ)) : ℝ) / 4096) = 0 := by
    have h1 : |(((1 : ℤ)) : ℝ) / 4096| < 1 := by
      rw [abs_of_nonneg (by norm_num)]
      norm_num
    unfold castInt16
    rw [truncToZero_of_abs_lt_one _ h1]
    decide
  have hz : castInt16 ((((0 : ℤ)) : ℝ) / 4096) = 0 := by
    have h1 : (((0 : ℤ)) : ℝ) / 4096 = ((0 : ℤ) : ℝ) := by norm_num
    rw [h1]
    exact castInt16_intCast 0 (by decide) (by decide)
  have e : VectorInt16_normalize Real.sqrt ⟨4096, 1, 0⟩
      = ⟨castInt16 ((((4096 : ℤ)) : ℝ) / VectorInt16_getMagnitude Real.sqrt ⟨4096, 1, 0⟩),
         castInt16 ((((1 : ℤ)) : ℝ) / VectorInt16_getMagnitude Real.sqrt ⟨4096, 1, 0⟩),
         castInt16 ((((0 : ℤ)) : ℝ) / VectorInt16_getMagnitude Real.sqrt ⟨4096, 1, 0⟩)⟩ := rfl
  have hn : VectorInt16_normalize Real.sqrt ⟨4096, 1, 0⟩ = ⟨1, 0, 0⟩ := by
    rw [e, hm, hx, hy, hz]
  refine ⟨by decide, by decide, hn, ?_⟩
  rw [hn]
  decide

/-- C17, amended: for a non-zero `v` whose sum of squares is at most `2^24`
(16777216, up to which the conversion to `float` is exact), with the real
square root, real division by the magnitude and truncation toward zero, the
value `r` that `VectorInt16_normalize` leaves in `v` has every component in
`{-1, 0, 1}`; a component is non-zero exactly when the two other components of
the old `v` were 0, and then it is the sign of its old value; a `v` with two
non-zero components becomes `{0, 0, 0}`. -/
theorem VectorInt16_normalize_degenerate (v r : VectorInt16)
    (hr : r = VectorInt16_normalize Real.sqrt v)
    (hne : v ≠ ⟨0, 0, 0⟩)
    (hfit : v.x * v.x + v.y * v.y + v.z * v.z ≤ 16777216) :
    ((r.x = -1 ∨ r.x = 0 ∨ r.x = 1) ∧ (r.y = -1 ∨ r.y = 0 ∨ r.y = 1) ∧
      (r.z = -1 ∨ r.z = 0 ∨ r.z = 1)) ∧
    ((r.x ≠ 0 ↔ v.y = 0 ∧ v.z = 0) ∧ (r.y ≠ 0 ↔ v.x = 0 ∧ v.z = 0) ∧
      (r.z ≠ 0 ↔ v.x = 0 ∧ v.y = 0)) ∧
    ((r.x ≠ 0 → r.x = Int.sign v.x) ∧ (r.y ≠ 0 → r.y = Int.sign v.y) ∧
      (r.z ≠ 0 → r.z = Int.sign v.z)) ∧
    ((v.x ≠ 0 ∧ v.y ≠ 0) ∨ (v.x ≠ 0 ∧ v.z ≠ 0) ∨ (v.y ≠ 0 ∧ v.z ≠ 0) → r = ⟨0, 0, 0⟩) := by
  have hne3 : v.x ≠ 0 ∨ v.y ≠ 0 ∨ v.z ≠ 0 := by
    by_contra hc
    push_neg at hc
    exact hne (VectorInt16.ext hc.1 hc.2.1 hc.2.2)
  rw [VectorInt16_normalize_components v hne3 hfit] at hr
  have rx : r.x = if v.y = 0 ∧ v.z = 0 then Int.sign v.x else 0 := by rw [hr]
  have ry : r.y = if v.x = 0 ∧ v.z = 0 then Int.sign v.y else 0 := by rw [hr]
  have rz : r.z = if v.x = 0 ∧ v.y = 0 then Int.sign v.z else 0 := by rw [hr]
  have sx := Int_sign_trichotomy v.x
  have sy := Int_sign_trichotomy v.y
  have sz := Int_sign_trichotomy v.z
  have zx : Int.sign v.x = 0 ↔ v.x = 0 := Int.sign_eq_zero_iff_zero
  have zy : Int.sign v.y = 0 ↔ v.y = 0 := Int.sign_eq_zero_iff_zero
  have zz : Int.sign v.z = 0 ↔ v.z = 0 := Int.sign_eq_zero_iff_zero
  refine ⟨⟨?_, ?_, ?_⟩, ⟨?_, ?_, ?_⟩, ⟨?_, ?_, ?_⟩, ?_⟩
  · rw [rx]; split_ifs
    · exact sx
    · exact Or.inr (Or.inl rfl)
  · rw [ry]; split_ifs
    · exact sy
    · exact Or.inr (Or.inl rfl)
  · rw [rz]; split_ifs
    · exact sz
    · exact Or.inr (Or.inl rfl)
  · rw [rx]; split_ifs with h
    · have : v.x ≠ 0 := by
        rcases hne3 with h1 | h1 | h1
        · exact h1
        · exact absurd h.1 h1
        · exact absurd h.2 h1
      exact ⟨fun _ => h, fun _ => fun hs => this (zx.1 hs)⟩
    · exact ⟨fun h0 => absurd rfl h0, fun h1 => absurd h1 h⟩
  · rw [ry]; split_ifs with h
    · have : v.y ≠ 0 := by
        rcases hne3 with h1 | h1 | h1
        · exact absurd h.1 h1
        · exact h1
        · exact absurd h.2 h1
      exact ⟨fun _ => h, fun _ => fun hs => this (zy.1 hs)⟩
    · exact ⟨fun h0 => absurd rfl h0, fun h1 => absurd h1 h⟩
  · rw [rz]; split_ifs with h
    · have : v.z ≠ 0 := by
        rcases hne3 with h1 | h1 | h1
        · exact absurd h.1 h1
        · exact absurd h.2 h1
        · exact h1
      exact ⟨fun _ => h, fun _ => fun hs => this (zz.1 hs)⟩
    · exact ⟨fun h0 => absurd rfl h0, fun h1 => absurd h1 h⟩
  · rw [rx]; split_ifs
    · exact fun _ => rfl
    · exact fun h0 => absurd rfl h0
  · rw [ry]; split_ifs
    · exact fun _ => rfl
    · exact fun h0 => absurd rfl h0
  · rw [rz]; split_ifs
    · exact fun _ => rfl
    · exact fun h0 => absurd rfl h0
  · intro h2
    have hx0 : ¬ (v.y = 0 ∧ v.z = 0) := by
      rintro ⟨h1, h3⟩
      rcases h2 with h | h | h
      · exact h.2 h1
      · exact h.2 h3
      · exact h.1 h1
    have hy0 : ¬ (v.x = 0 ∧ v.z = 0) := by
      rintro ⟨h1, h3⟩
      rcases h2 with h | h | h
      · exact h.1 h1
      · exact h.1 h1
      · exact h.2 h3
    have hz0 : ¬ (v.x = 0 ∧ v.y = 0) := by
      rintro ⟨h1, h3⟩
      rcases h2 with h | h | h
      · exact h.1 h1
      · exact h.1 h1
      · exact h.1 h3
    rw [hr, if_neg hx0, if_neg hy0, if_neg hz0]

/-- C17, amended, at `{3, 4, 0}`, which becomes `{0, 0, 0}`. -/
theorem VectorInt16_normalize_degenerate_witness :
    (⟨3, 4, 0⟩ : VectorInt16) ≠ ⟨0, 0, 0⟩ ∧
    ((3 : ℤ) * 3 + 4 * 4 + 0 * 0 ≤ 16777216) ∧
    VectorInt16_normalize Real.sqrt ⟨3, 4, 0⟩ = ⟨0, 0, 0⟩ :=
  ⟨by decide, by decide,
    (VectorInt16_normalize_degenerate ⟨3, 4, 0⟩ (VectorInt16_normalize Real.sqrt ⟨3, 4, 0⟩)
      rfl (by decide) (by decide)).2.2.2 (Or.inl ⟨by decide, by decide⟩)⟩

end Helper3DMath
